import Mathlib

/-!
Shallow embedding of the Relationship Graph Query & Pruning Engine of
`src/api_server.ts` (epstein-doc-explorer).  Database tables are modelled as
association lists, SQL predicates as boolean functions, JavaScript `Map`s as
insertion-ordered association lists, and IEEE-754 doubles as exact rationals.
SQLite `ORDER BY` and JavaScript `Array.prototype.sort` (stable since ES2019)
are both modelled by a stable insertion sort on the comparator used in the
source.
-/

namespace EDE

/-- Row of the `rdf_triples` table together with the columns selected by the
queries in `api_server.ts` (`id, doc_id, timestamp, actor, action, target,
location, triple_tags, top_cluster_ids`).  `top_cluster_ids` is stored as a
JSON string in the database and parsed with a try/catch in the source; we
model it already parsed, with `none` covering both SQL NULL and unparsable
JSON (both make the cluster filter return `false`, see `clusterPass`). -/
structure RawTriple where
  id : Int
  doc_id : String
  timestamp : Option String
  actor : String
  action : String
  target : String
  location : Option String
  triple_tags : Option String
  top_cluster_ids : Option (List Int)
  deriving DecidableEq, Repr, Inhabited

/-- The relational store read by `api_server.ts`: `rdf_triples`,
`entity_aliases (original_name, canonical_name)`,
`canonical_entities (canonical_name, hop_distance_from_principal)` and
`documents (doc_id, category)`.  Lookup tables are modelled as association
lists with first-match lookup, which matches the SQL LEFT JOINs under the
tables' key-uniqueness invariants (`original_name`, `canonical_name` and
`doc_id` are unique). -/
structure DB where
  triples : List RawTriple
  aliases : List (String × String)
  canonical_entities : List (String × Option Int)
  documents : List (String × Option String)

/-- The fixed reference entity (`EPSTEIN_NAME` in `api_server.ts`). -/
def EPSTEIN_NAME : String := "Jeffrey Epstein"

/-- `MAX_DB_LIMIT` from `api_server.ts` line 250: cap on rows fetched by the
global query. -/
def MAX_DB_LIMIT : Nat := 100000

/-- Alias resolution, `COALESCE(ea.canonical_name, rt.actor)` over
`LEFT JOIN entity_aliases ea ON rt.actor = ea.original_name`: the canonical
name of the first alias row whose `original_name` equals the input, else the
input unchanged. -/
def resolve (aliases : List (String × String)) (name : String) : String :=
  match aliases.find? (fun r => r.1 == name) with
  | some r => r.2
  | none => name

/-- Applies `resolve` to the `actor` and `target` columns, as the SELECT
clauses of both queries do. -/
def resolveTriple (aliases : List (String × String)) (t : RawTriple) : RawTriple :=
  { t with actor := resolve aliases t.actor, target := resolve aliases t.target }

/-- Lexicographic strict comparison on character lists by code point. -/
def charListLt : List Char → List Char → Bool
  | [], [] => false
  | [], _ :: _ => true
  | _ :: _, [] => false
  | a :: as, b :: bs =>
    if a.toNat < b.toNat then true
    else if b.toNat < a.toNat then false
    else charListLt as bs

/-- SQLite TEXT comparison (BINARY collation, a bytewise memcmp): on UTF-8
data this is exactly the lexicographic order of the code-point sequences. -/
def strLt (a b : String) : Bool := charListLt a.toList b.toList

/-- The baseline timestamp condition present in every query:
`(rt.timestamp IS NULL OR rt.timestamp >= '1970-01-01')`. -/
def baselineTs (t : RawTriple) : Bool :=
  match t.timestamp with
  | none => true
  | some s => !(strLt s "1970-01-01")

/-- Category of a document: `documents.category` via
`LEFT JOIN documents d ON rt.doc_id = d.doc_id`.  `none` when the document
row is missing or its stored category is NULL. -/
def docCategory (db : DB) (docId : String) : Option String :=
  (db.documents.find? (fun r => r.1 == docId)).bind (fun r => r.2)

/-- The category WHERE clause `AND d.category IN (...)` (absent when the
validated category set is empty).  A NULL category never satisfies `IN`. -/
def categoryPass (db : DB) (cats : List String) (t : RawTriple) : Bool :=
  cats.isEmpty ||
    match docCategory db t.doc_id with
    | some c => cats.contains c
    | none => false

/-- Accumulates leading decimal digits, stopping at the first non-digit
(the behaviour of SQLite `CAST(... AS INTEGER)` on a text prefix). -/
def digitsVal : List Char → Nat → Nat
  | [], acc => acc
  | c :: cs, acc => if c.isDigit then digitsVal cs (acc * 10 + (c.toNat - 48)) else acc

/-- SQLite `CAST(s AS INTEGER)`: optional sign then leading digits, `0` when
no digits are present. -/
def sqliteCastInt (s : String) : Int :=
  match s.toList with
  | '-' :: cs => -(digitsVal cs 0 : Int)
  | '+' :: cs => (digitsVal cs 0 : Int)
  | cs => (digitsVal cs 0 : Int)

/-- `CAST(substr(rt.timestamp, 1, 4) AS INTEGER)`: the year prefix of a
timestamp string. -/
def tsYear (s : String) : Int := sqliteCastInt (s.take 4)

/-- The year-range WHERE clause (lines 227-232 of `api_server.ts`): with
`includeUndated`, `(ts IS NULL OR (min <= year <= max))`; otherwise
`(ts IS NOT NULL AND min <= year <= max)`. -/
def yearPass (yr : Option (Int × Int)) (includeUndated : Bool) (t : RawTriple) : Bool :=
  match yr with
  | none => true
  | some (mn, mx) =>
    match t.timestamp with
    | none => includeUndated
    | some s => decide (mn ≤ tsYear s) && decide (tsYear s ≤ mx)

/-- `canonical_entities.hop_distance_from_principal` for a canonical name
(via `LEFT JOIN canonical_entities ce ON resolvedName = ce.canonical_name`);
`none` when the entity row is missing or the column is NULL. -/
def hopLookup (db : DB) (name : String) : Option Int :=
  (db.canonical_entities.find? (fun r => r.1 == name)).bind (fun r => r.2)

/-- The hop WHERE clause (lines 239-246): when a finite `maxHops` is
validated, `ce_actor.hop_distance_from_principal <= ? AND
ce_target.hop_distance_from_principal <= ?`, where a NULL comparison (missing
entity or NULL column) excludes the row.  The triple passed here already has
resolved names, matching the COALESCE join condition. -/
def hopPass (db : DB) (maxHops : Option Int) (t : RawTriple) : Bool :=
  match maxHops with
  | none => true
  | some h =>
    match hopLookup db t.actor, hopLookup db t.target with
    | some da, some dt => decide (da ≤ h) && decide (dt ≤ h)
    | _, _ => false

/-- Query parameters after the CSV parsing / validation helpers of
`api_server.ts` have run: `clusters`, `categories`, `keywords` are the
validated lists, `yearRange` is the validated pair or `none`, `maxHops` the
validated bound or `none`.  `limit` is kept pre-validation (`none` models a
missing or non-numeric value, i.e. a NaN `parseInt` result) because
`validateLimit` itself is under study. -/
structure QueryParams where
  limit : Option Int
  clusters : List Int
  categories : List String
  yearRange : Option (Int × Int)
  includeUndated : Bool
  keywords : List String
  maxHops : Option Int

/-- `validateLimit` from `api_server.ts` lines 109-113: NaN or a value below
1 yields the default 500; otherwise clamp with
`Math.min(20000, Math.max(1, parsed))`. -/
def validateLimit (limit : Option Int) : Int :=
  match limit with
  | none => 500
  | some p => if p < 1 then 500 else min 20000 (max 1 p)

/-- The WHERE clause of the global `/api/relationships` query (lines
251-273), evaluated on a triple whose names are already resolved: baseline
timestamp, optional category, year and hop conditions. -/
def sqlPred (db : DB) (p : QueryParams) (t : RawTriple) : Bool :=
  baselineTs t && categoryPass db p.categories t &&
    yearPass p.yearRange p.includeUndated t && hopPass db p.maxHops t

/-- Comparator key for `ORDER BY rt.timestamp`: SQLite sorts NULLs first,
then TEXT ascending. -/
def tsLe (a b : Option String) : Bool :=
  match a, b with
  | none, _ => true
  | some _, none => false
  | some x, some y => !(strLt y x)

/-- Inserts `x` into an already sorted list after every element `y` with
`le y x`, so that ties keep their original relative order. -/
def insertStable (le : α → α → Bool) : List α → α → List α
  | [], x => [x]
  | y :: ys, x => if le y x then y :: insertStable le ys x else x :: y :: ys

/-- Stable sort by a total boolean preorder (`le y x` = "y may stay before
x"): models both SQLite `ORDER BY` on equal keys preserving row order and
the (stable, per ES2019) JavaScript `Array.prototype.sort`. -/
def stableSortBy (le : α → α → Bool) (l : List α) : List α :=
  l.foldl (insertStable le) []

/-- `ORDER BY rt.timestamp` applied to a row list. -/
def sortByTimestamp (l : List RawTriple) : List RawTriple :=
  stableSortBy (fun a b => tsLe a.timestamp b.timestamp) l

/-- `allRelationships` of the global view (lines 251-283): resolve aliases,
apply the SQL WHERE conditions, `ORDER BY rt.timestamp`, `LIMIT 100000`. -/
def globalRows (db : DB) (p : QueryParams) : List RawTriple :=
  (sortByTimestamp
    ((db.triples.map (resolveTriple db.aliases)).filter (fun t => sqlPred db p t))).take
    MAX_DB_LIMIT

/-- In-memory tag-cluster filter (lines 286-297): pass everything when no
cluster is selected; otherwise require a parsed `top_cluster_ids` list
intersecting the selection (`none`, covering NULL and unparsable JSON, is
excluded). -/
def clusterPass (clusters : List Int) (t : RawTriple) : Bool :=
  clusters.isEmpty ||
    match t.top_cluster_ids with
    | some l => l.any (fun c => clusters.contains c)
    | none => false

/-- The cluster filtering stage over the fetched rows. -/
def clusterStage (clusters : List Int) (l : List RawTriple) : List RawTriple :=
  l.filter (clusterPass clusters)

/-- One step of the tokenizer `text.split(/\s+/)`: walks the characters,
emitting the current token at each first whitespace character of a run and a
final token (possibly empty) at the end, which reproduces the JavaScript
behaviour of leading/trailing empty tokens and collapsed separator runs. -/
def splitWsGo : List Char → List Char → Bool → List String
  | [], cur, _ => [String.mk cur.reverse]
  | c :: cs, cur, afterWs =>
    if c.isWhitespace then
      if afterWs then splitWsGo cs cur true
      else String.mk cur.reverse :: splitWsGo cs [] true
    else splitWsGo cs (c :: cur) false

/-- `text.split(/\s+/)` from `calculateBM25Score`. -/
def splitWs (s : String) : List String := splitWsGo s.toList [] false

/-- JavaScript `word.includes(keyword)`: `k` occurs as a contiguous substring
of `w`. -/
def containsSub (w k : String) : Bool :=
  let rec go : List Char → Bool
    | [] => k.toList.isEmpty
    | c :: cs => k.toList.isPrefixOf (c :: cs) || go cs
  go w.toList

/-- Term frequency from `calculateBM25Score` line 179: the number of tokens
containing the keyword as a substring
(`words.filter(word => word.includes(keyword)).length`). -/
def termFreq (words : List String) (k : String) : Nat :=
  (words.filter (fun w => containsSub w k)).length

/-- The per-keyword BM25 contribution of `calculateBM25Score` (lines
177-190) with `k1 = 1.2`, `b = 0.75`, `avgDocLength = 100`: zero when the
term frequency is zero (the source skips the keyword), otherwise
`idf * (tf*(k1+1)) / (tf + k1*(1 - b + b*(docLength/avgDocLength)))`. -/
def bm25Term (idf : ℚ) (words : List String) (keyword : String) : ℚ :=
  if termFreq words keyword = 0 then 0
  else
    idf * ((termFreq words keyword : ℚ) * (1.2 + 1) /
      ((termFreq words keyword : ℚ) +
        1.2 * (1 - 0.75 + 0.75 * ((words.length : ℚ) / 100))))

/-- `calculateBM25Score` with the IDF constant abstracted: zero for an empty
text or empty keyword list (the source's early return), otherwise the sum of
per-keyword contributions over the lowercased, whitespace-split text.  The
source accumulates with `forEach`, skipping zero-frequency keywords; summing
a list whose zero-frequency entries are 0 is the same total. -/
def bm25ScoreWith (idf : ℚ) (text : String) (keywords : List String) : ℚ :=
  if text = "" || keywords.isEmpty then 0
  else ((keywords.map (bm25Term idf (splitWs text.toLower))).sum)

/-- The IEEE-754 double produced by `Math.log(10)` in the source, modelled as
the exact decimal it prints as.  Only the sign of the score is ever observed
(`score > 0`), so any positive constant gives the same observable
behaviour; see `bm25ScoreWith_pos_iff` which is proved for every positive
IDF. -/
def logTen : ℚ := 2.302585092994046

/-- `calculateBM25Score(text, keywords)` from `api_server.ts` lines 162-193,
over exact rationals. -/
def calculateBM25Score (text : String) (keywords : List String) : ℚ :=
  bm25ScoreWith logTen text keywords

/-- The searchable text of a relationship (line 303):
`actor + " " + action + " " + target + " " + (location || "")`. -/
def composedText (t : RawTriple) : String :=
  t.actor ++ " " ++ t.action ++ " " ++ t.target ++ " " ++ t.location.getD ""

/-- The keyword filtering stage (lines 300-308): applied only when the
validated keyword list is non-empty; keeps the relationships whose BM25
score over the composed text is strictly positive. -/
def keywordStage (ks : List String) (l : List RawTriple) : List RawTriple :=
  if ks.isEmpty then l
  else l.filter (fun t => decide (0 < calculateBM25Score (composedText t) ks))

/-- The in-memory `filteredRelationships` of the global view: cluster filter
then keyword filter over the fetched rows. -/
def globalFiltered (db : DB) (p : QueryParams) : List RawTriple :=
  keywordStage p.keywords (clusterStage p.clusters (globalRows db p))

/-- Adds a key to the adjacency map if absent
(`if (!adjacency.has(k)) adjacency.set(k, new Set())`), preserving the
`Map`'s insertion order. -/
def adjEnsure (m : List (String × List String)) (k : String) :
    List (String × List String) :=
  if m.any (fun p => p.1 == k) then m else m ++ [(k, [])]

/-- Adds `v` to the neighbour `Set` of `k`
(`adjacency.get(k)!.add(v)`): sets deduplicate and keep insertion order. -/
def adjAdd (m : List (String × List String)) (k v : String) :
    List (String × List String) :=
  m.map (fun p => if p.1 == k then (p.1, if p.2.contains v then p.2 else p.2 ++ [v]) else p)

/-- The undirected adjacency map built from the filtered relationships
(lines 311-318): both endpoints become keys and each gains the other as a
neighbour. -/
def buildAdjacency (rels : List RawTriple) : List (String × List String) :=
  rels.foldl
    (fun m t =>
      adjAdd (adjAdd (adjEnsure (adjEnsure m t.actor) t.target) t.actor t.target)
        t.target t.actor)
    []

/-- Neighbour list of a node in the adjacency map
(`adjacency.get(current) || new Set()`). -/
def adjNeighbors (m : List (String × List String)) (k : String) : List String :=
  match m.find? (fun p => p.1 == k) with
  | some p => p.2
  | none => []

/-- One visit of the BFS loop body (lines 332-338): each undiscovered
neighbour is recorded at distance `d + 1` and appended to the queue. -/
def bfsVisit (dist : List (String × Nat)) (queue : List String) (d : Nat) :
    List String → List (String × Nat) × List String
  | [] => (dist, queue)
  | n :: ns =>
    if dist.any (fun p => p.1 == n) then bfsVisit dist queue d ns
    else bfsVisit (dist ++ [(n, d + 1)]) (queue ++ [n]) d ns

/-- The BFS worklist loop (lines 328-339).  The fuel only bounds iteration
count for termination: every dequeue matches one earlier enqueue, and each
enqueue accompanies a fresh `dist` entry keyed by an adjacency-map key, so
`m.length + 1` iterations always suffice to drain the queue. -/
def bfsLoop (m : List (String × List String)) :
    Nat → List String → List (String × Nat) → List (String × Nat)
  | 0, _, dist => dist
  | _ + 1, [], dist => dist
  | fuel + 1, cur :: rest, dist =>
    let d := (match dist.find? (fun p => p.1 == cur) with | some p => p.2 | none => 0)
    let step := bfsVisit dist rest d (adjNeighbors m cur)
    bfsLoop m fuel step.2 step.1

/-- The per-query BFS distances from the reference entity over the filtered
triple graph (`distances`, lines 320-340).  Entities absent from the result
are unreachable (distance infinity).  In the source this map is computed but
never used by the hop filter, which instead runs inside the SQL query; see
`hopPass`. -/
def bfsDistances (rels : List RawTriple) : List (String × Nat) :=
  let m := buildAdjacency rels
  if m.any (fun p => p.1 == EPSTEIN_NAME) then
    bfsLoop m (m.length + 1) [EPSTEIN_NAME] [(EPSTEIN_NAME, 0)]
  else []

/-- Distance lookup in the BFS result; `none` means unreachable. -/
def distLookup (dist : List (String × Nat)) (k : String) : Option Nat :=
  (dist.find? (fun p => p.1 == k)).map (fun p => p.2)

/-- The edge-grouping key of both `api_server.ts` line 346 and
`NetworkGraph.tsx` line 60: the ordered concatenation
`rel.actor + "|||" + rel.target`. -/
def edgeKey (t : RawTriple) : String := t.actor ++ "|||" ++ t.target

/-- One step of building `edgeMap` (lines 343-351): append the relationship
to the bundle of its key, creating the bundle at the end of the
insertion-ordered map if the key is new. -/
def groupInsert (m : List (String × List RawTriple)) (t : RawTriple) :
    List (String × List RawTriple) :=
  if m.any (fun p => p.1 == edgeKey t) then
    m.map (fun p => if p.1 == edgeKey t then (p.1, p.2 ++ [t]) else p)
  else m ++ [(edgeKey t, [t])]

/-- The deduplicated edge map: bundles of relationships grouped by
`edgeKey`, in first-discovery order (a JavaScript `Map` iterates in
insertion order, and `Array.from(edgeMap.entries())` preserves it). -/
def edgeMapOf (rels : List RawTriple) : List (String × List RawTriple) :=
  rels.foldl groupInsert []

/-- The representative of a bundle: its first relationship (`rels[0]`,
line 358).  Bundles are never empty by construction, so the default is
unobservable. -/
def repOf (b : List RawTriple) : RawTriple := b.headD default

/-- Increment of a node's degree counter in the `nodeDegrees` map. -/
def degIncr (m : List (String × Nat)) (k : String) : List (String × Nat) :=
  if m.any (fun p => p.1 == k) then
    m.map (fun p => if p.1 == k then (p.1, p.2 + 1) else p)
  else m ++ [(k, 1)]

/-- `nodeDegrees` (lines 362-367): per unique edge, increment the degree of
the representative's actor and target. -/
def degreesOf (bundles : List (String × List RawTriple)) : List (String × Nat) :=
  bundles.foldl (fun m b => degIncr (degIncr m (repOf b.2).actor) (repOf b.2).target) []

/-- Degree lookup with default 0 (`nodeDegrees.get(name) || 0`). -/
def degOf (degs : List (String × Nat)) (k : String) : Nat :=
  match degs.find? (fun p => p.1 == k) with
  | some p => p.2
  | none => 0

/-- The density score of a bundle (lines 370-380): the sum of the unique-edge
degrees of the representative's endpoints. -/
def densityOf (degs : List (String × Nat)) (b : String × List RawTriple) : Nat :=
  degOf degs (repOf b.2).actor + degOf degs (repOf b.2).target

/-- The bundles of the filtered relationships sorted by density descending
with ties kept in discovery order
(`edgesWithDensity.sort((a, b) => b._density - a._density)`, a stable
sort). -/
def sortedBundles (rels : List RawTriple) : List (String × List RawTriple) :=
  let bs := edgeMapOf rels
  let degs := degreesOf bs
  stableSortBy (fun a b => decide (densityOf degs b ≤ densityOf degs a)) bs

/-- `prunedEdges = edgesWithDensity.slice(0, limit)` (line 384). -/
def prunedBundles (rels : List RawTriple) (lim : Nat) : List (String × List RawTriple) :=
  (sortedBundles rels).take lim

/-- Response envelope of `/api/relationships` (lines 396-400).  The source's
final `map` only reshapes the `triple_tags` JSON into a `tags` array,
preserving the record count, order and every field used here, so
`relationships` carries the pruned rows directly. -/
structure GlobalResponse where
  relationships : List RawTriple
  totalBeforeLimit : Nat
  totalBeforeFilter : Nat
  deriving Repr

/-- The `/api/relationships` handler (lines 198-405): fetch and filter rows,
deduplicate into bundles, prune to the validated limit, expand the kept
bundles back to relationships
(`prunedEdges.flatMap(edge => edge.relationships)`) and report
`totalBeforeLimit = uniqueEdges.length` and
`totalBeforeFilter = allRelationships.length`.  The BFS `distances` map of
`bfsDistances` is also computed by the handler but takes no part in the
result. -/
def globalQuery (db : DB) (p : QueryParams) : GlobalResponse :=
  let rows := globalRows db p
  let filtered := globalFiltered db p
  let pruned := prunedBundles filtered (validateLimit p.limit).toNat
  { relationships := (pruned.map (fun b => b.2)).flatten
    totalBeforeLimit := (edgeMapOf filtered).length
    totalBeforeFilter := rows.length }

/-- The alias-equivalence set of the neighborhood view (lines 430-438): all
original names mapping to the given name, the canonical names the given name
maps to, and the name itself; SQL `UNION` deduplicates (only membership in
the set is observable downstream). -/
def aliasEquivSet (db : DB) (name : String) : List String :=
  (((db.aliases.filter (fun r => r.2 == name)).map (fun r => r.1)) ++
    ((db.aliases.filter (fun r => r.1 == name)).map (fun r => r.2)) ++ [name]).dedup

/-- `rt.actor IN (names) OR rt.target IN (names)`, on the raw
(pre-resolution) columns as in the SQL. -/
def nameMatch (names : List String) (t : RawTriple) : Bool :=
  names.contains t.actor || names.contains t.target

/-- The rows behind the neighborhood view's unfiltered `totalRelationships`
count (lines 442-447): name match plus the baseline timestamp condition,
nothing else. -/
def totalCountRows (db : DB) (name : String) : List RawTriple :=
  db.triples.filter (fun t => nameMatch (aliasEquivSet db name) t && baselineTs t)

/-- The WHERE clause of the neighborhood query (lines 484-506), on a raw
triple: name match and baseline on the raw columns, category and year on
unresolved columns, and the hop condition on the resolved names (the
`canonical_entities` join uses the COALESCEd name). -/
def neighborhoodSqlPred (db : DB) (p : QueryParams) (names : List String)
    (t : RawTriple) : Bool :=
  nameMatch names t && baselineTs t && categoryPass db p.categories t &&
    yearPass p.yearRange p.includeUndated t &&
    hopPass db p.maxHops (resolveTriple db.aliases t)

/-- `allRelationships` of the neighborhood view: filter, resolve the selected
names, `ORDER BY rt.timestamp` (no database LIMIT on this query). -/
def neighborhoodRows (db : DB) (name : String) (p : QueryParams) : List RawTriple :=
  sortByTimestamp
    (((db.triples.filter (neighborhoodSqlPred db p (aliasEquivSet db name))).map
      (resolveTriple db.aliases)))

/-- Response envelope of `/api/actor/:name/relationships` (lines 554-557). -/
structure NeighborhoodResponse where
  relationships : List RawTriple
  totalBeforeFilter : Nat
  deriving Repr

/-- The `/api/actor/:name/relationships` handler (lines 408-562): restrict to
the alias-equivalence set, apply the SQL filters, then the in-memory cluster
and keyword filters; no edge-budget pruning.  `totalBeforeFilter` is the
unfiltered count of `totalCountRows`.  The `limit` field of the parameters is
unused by this view. -/
def neighborhoodQuery (db : DB) (name : String) (p : QueryParams) :
    NeighborhoodResponse :=
  { relationships := keywordStage p.keywords (clusterStage p.clusters (neighborhoodRows db name p))
    totalBeforeFilter := (totalCountRows db name).length }

/-- Builds a triple with the given id, actor, action, target and timestamp;
the remaining columns are fixed neutral values. -/
def mkTriple (i : Int) (a act tg : String) (ts : Option String) : RawTriple :=
  { id := i, doc_id := "d1", timestamp := ts, actor := a, action := act, target := tg,
    location := none, triple_tags := none, top_cluster_ids := none }

/-- Query parameters with a given limit and every filter disabled. -/
def plainParams (lim : Option Int) : QueryParams :=
  { limit := lim, clusters := [], categories := [], yearRange := none,
    includeUndated := true, keywords := [], maxHops := none }

/-- First A-to-B triple of the worked pruning example. -/
def tAB1 : RawTriple := mkTriple 1 "A" "met" "B" none

/-- Second A-to-B triple of the worked pruning example. -/
def tAB2 : RawTriple := mkTriple 2 "A" "called" "B" none

/-- The B-to-C triple of the worked pruning example. -/
def tBC : RawTriple := mkTriple 3 "B" "met" "C" none

/-- Database holding exactly the three example triples, with empty lookup
tables. -/
def exampleDB : DB :=
  { triples := [tAB1, tAB2, tBC], aliases := [], canonical_entities := [], documents := [] }

/-- A pair of triples connecting the same two entities in opposite
orientations. -/
def oppDB : DB :=
  { triples := [mkTriple 1 "A" "met" "B" none, mkTriple 2 "B" "called" "A" none],
    aliases := [], canonical_entities := [], documents := [] }

/-- Database with a single triple dated before 1970. -/
def preEpochDB : DB :=
  { triples := [mkTriple 1 "A" "met" "B" (some "1960-01-01")],
    aliases := [], canonical_entities := [], documents := [] }

/-- Database for the hop-filter counterexample: the stored
`canonical_entities` hop distances mark `E` and `F` as one hop from the
principal, but no triple involves the principal, so the per-query BFS over
the filtered graph reaches neither. -/
def hopDB : DB :=
  { triples := [mkTriple 1 "E" "met" "F" none],
    aliases := [],
    canonical_entities := [("Jeffrey Epstein", some 0), ("E", some 1), ("F", some 1)],
    documents := [] }

/-- Parameters requesting `maxHops = 1` and no other filter. -/
def hopParams : QueryParams :=
  { limit := none, clusters := [], categories := [], yearRange := none,
    includeUndated := true, keywords := [], maxHops := some 1 }

/-- A triple whose action contains a token matching the keyword "mass" by
substring containment. -/
def massTriple : RawTriple := mkTriple 1 "A" "gave massages" "B" none

/-- A one-row alias table for the idempotence witness. -/
def jeffAliases : List (String × String) := [("Jeff", "Jeffrey Epstein")]

/-- Database with a single triple dated after 1970, for the baseline
timestamp witness. -/
def datedDB : DB :=
  { triples := [mkTriple 1 "A" "met" "B" (some "1975-06-01")],
    aliases := [], canonical_entities := [], documents := [] }

/-! ### Helper lemmas -/

/-- Inserting an element with `insertStable` yields a permutation of consing
it. -/
lemma insertStable_perm (le : α → α → Bool) (x : α) :
    ∀ s : List α, List.Perm (insertStable le s x) (x :: s) := by
  intro s
  induction s with
  | nil => simp [insertStable]
  | cons y ys ih =>
    rw [insertStable]
    split
    · exact (ih.cons y).trans (List.Perm.swap x y ys)
    · exact List.Perm.refl _

/-- Folding `insertStable` over a list permutes the accumulator followed by
the list. -/
lemma foldl_insertStable_perm (le : α → α → Bool) :
    ∀ (l acc : List α), List.Perm (l.foldl (insertStable le) acc) (acc ++ l) := by
  intro l
  induction l with
  | nil => simp
  | cons x xs ih =>
    intro acc
    have h1 : List.Perm (xs.foldl (insertStable le) (insertStable le acc x)) (insertStable le acc x ++ xs) :=
      ih _
    have h2 : List.Perm (insertStable le acc x ++ xs) ((x :: acc) ++ xs) :=
      (insertStable_perm le x acc).append_right xs
    have h3 : List.Perm ((x :: acc) ++ xs) (acc ++ x :: xs) := by
      simpa using List.perm_middle.symm
    exact (h1.trans h2).trans h3

/-- The stable sort is a permutation of its input. -/
lemma stableSortBy_perm (le : α → α → Bool) (l : List α) : List.Perm (stableSortBy le l) l := by
  simpa [stableSortBy] using foldl_insertStable_perm le l []

/-- Membership is preserved downwards through the stable sort. -/
lemma mem_of_mem_stableSortBy {le : α → α → Bool} {l : List α} {x : α}
    (h : x ∈ stableSortBy le l) : x ∈ l :=
  (stableSortBy_perm le l).subset h

/-- Every relationship of a bundle of `groupInsert m t` was already in a
bundle of `m` under the same key, or is the inserted relationship. -/
lemma groupInsert_mem {m : List (String × List RawTriple)} {t : RawTriple}
    {k : String} {b : List RawTriple} (h : (k, b) ∈ groupInsert m t) {x : RawTriple}
    (hx : x ∈ b) : (∃ b', (k, b') ∈ m ∧ x ∈ b') ∨ x = t := by
  rw [groupInsert] at h
  split at h
  · obtain ⟨p, hp, hpe⟩ := List.mem_map.mp h
    by_cases hk : p.1 == edgeKey t
    · rw [if_pos hk] at hpe
      obtain ⟨hk1, hb⟩ := Prod.mk.injEq .. ▸ hpe
      subst hb
      rcases List.mem_append.mp hx with hx1 | hx1
      · exact Or.inl ⟨p.2, by simpa [← hk1] using hp, hx1⟩
      · exact Or.inr (List.mem_singleton.mp hx1)
    · rw [if_neg hk] at hpe
      exact Or.inl ⟨b, hpe ▸ hp, hx⟩
  · rcases List.mem_append.mp h with h1 | h1
    · exact Or.inl ⟨b, h1, hx⟩
    · obtain ⟨hk, hb⟩ := Prod.mk.injEq .. ▸ List.mem_singleton.mp h1
      subst hb
      exact Or.inr (List.mem_singleton.mp hx)

/-- Every relationship in a bundle of the folded edge map comes from the
initial map or from the processed list. -/
lemma edgeFold_mem :
    ∀ (rels : List RawTriple) (m : List (String × List RawTriple)) {k : String}
      {b : List RawTriple}, (k, b) ∈ rels.foldl groupInsert m → ∀ {x : RawTriple},
      x ∈ b → (∃ b', (k, b') ∈ m ∧ x ∈ b') ∨ x ∈ rels := by
  intro rels
  induction rels with
  | nil => intro m k b h x hx; exact Or.inl ⟨b, h, hx⟩
  | cons r rs ih =>
    intro m k b h x hx
    rcases ih (groupInsert m r) h hx with ⟨b', hb', hxb'⟩ | hxr
    · rcases groupInsert_mem hb' hxb' with ⟨b'', hb'', hxb''⟩ | hxe
      · exact Or.inl ⟨b'', hb'', hxb''⟩
      · exact Or.inr (by simp [hxe])
    · exact Or.inr (List.mem_cons_of_mem r hxr)

/-- Every relationship in a bundle of `edgeMapOf rels` is an element of
`rels`. -/
lemma edgeMapOf_mem {rels : List RawTriple} {k : String} {b : List RawTriple}
    (h : (k, b) ∈ edgeMapOf rels) {x : RawTriple} (hx : x ∈ b) : x ∈ rels := by
  rcases edgeFold_mem rels [] h hx with ⟨b', hb', _⟩ | hxr
  · simp at hb'
  · exact hxr

/-- `groupInsert` leaves the key list unchanged when the key exists, and
appends the new key otherwise. -/
lemma groupInsert_keys (m : List (String × List RawTriple)) (t : RawTriple) :
    (groupInsert m t).map Prod.fst =
      if m.any (fun p => p.1 == edgeKey t) then m.map Prod.fst
      else m.map Prod.fst ++ [edgeKey t] := by
  rw [groupInsert]
  split
  · rw [List.map_map]
    refine List.map_congr_left (fun p _ => ?_)
    by_cases hk : p.1 = edgeKey t <;> simp [hk]
  · simp

/-- Keys of a bundle of `groupInsert m t`: an old key or the key of the
inserted relationship. -/
lemma groupInsert_keys_mem {m : List (String × List RawTriple)} {t : RawTriple}
    {k : String} : k ∈ (groupInsert m t).map Prod.fst ↔
      k ∈ m.map Prod.fst ∨ k = edgeKey t := by
  rw [groupInsert_keys]
  split
  · rename_i hany
    constructor
    · exact fun h => Or.inl h
    · rintro (h | rfl)
      · exact h
      · obtain ⟨p, hp, hpe⟩ := List.any_eq_true.mp hany
        exact List.mem_map.mpr ⟨p, hp, by simpa using hpe⟩
  · simp

/-- `groupInsert` preserves distinctness of the bundle keys. -/
lemma groupInsert_keys_nodup {m : List (String × List RawTriple)} {t : RawTriple}
    (h : (m.map Prod.fst).Nodup) : ((groupInsert m t).map Prod.fst).Nodup := by
  rw [groupInsert_keys]
  split
  · exact h
  · rename_i hany
    rw [List.nodup_append]
    refine ⟨h, List.nodup_singleton _, ?_⟩
    intro k hk hk'
    obtain ⟨p, hp, hpe⟩ := List.mem_map.mp hk
    rw [List.mem_singleton] at hk'
    have := List.any_eq_false.mp (Bool.not_eq_true _ ▸ hany) p hp
    exact this (by simp [hpe, hk'])

/-- Keys of the folded edge map: initial keys plus the keys of the processed
relationships. -/
lemma edgeFold_keys_mem :
    ∀ (rels : List RawTriple) (m : List (String × List RawTriple)) (k : String),
      k ∈ ((rels.foldl groupInsert m).map Prod.fst) ↔
        k ∈ m.map Prod.fst ∨ k ∈ rels.map edgeKey := by
  intro rels
  induction rels with
  | nil => simp
  | cons r rs ih =>
    intro m k
    rw [List.foldl_cons, ih (groupInsert m r) k, groupInsert_keys_mem]
    simp [or_assoc]

/-- The folded edge map has pairwise-distinct bundle keys. -/
lemma edgeFold_keys_nodup :
    ∀ (rels : List RawTriple) (m : List (String × List RawTriple)),
      (m.map Prod.fst).Nodup → ((rels.foldl groupInsert m).map Prod.fst).Nodup := by
  intro rels
  induction rels with
  | nil => exact fun m h => h
  | cons r rs ih => exact fun m h => ih (groupInsert m r) (groupInsert_keys_nodup h)

/-- Every bundle of `groupInsert m t` contains only relationships carrying
the bundle's key, provided `m` already does. -/
lemma groupInsert_content {m : List (String × List RawTriple)} {t : RawTriple}
    (hm : ∀ k b, (k, b) ∈ m → ∀ x ∈ b, edgeKey x = k) :
    ∀ k b, (k, b) ∈ groupInsert m t → ∀ x ∈ b, edgeKey x = k := by
  intro k b hb x hx
  rw [groupInsert] at hb
  split at hb
  · obtain ⟨p, hp, hpe⟩ := List.mem_map.mp hb
    by_cases hk : p.1 == edgeKey t
    · rw [if_pos hk] at hpe
      obtain ⟨hk1, hb2⟩ := Prod.mk.injEq .. ▸ hpe
      subst hb2
      rcases List.mem_append.mp hx with hx1 | hx1
      · exact hk1 ▸ hm p.1 p.2 (by simpa using hp) x hx1
      · rw [List.mem_singleton] at hx1
        subst hx1
        rw [← hk1]
        exact (beq_iff_eq.mp hk).symm
    · rw [if_neg hk] at hpe
      exact hm k b (hpe ▸ hp) x hx
  · rcases List.mem_append.mp hb with h1 | h1
    · exact hm k b h1 x hx
    · obtain ⟨hk, hb2⟩ := Prod.mk.injEq .. ▸ List.mem_singleton.mp h1
      subst hb2
      rw [List.mem_singleton] at hx
      subst hx
      exact hk ▸ rfl

/-- In the folded edge map, every relationship of a bundle has exactly the
bundle's key. -/
lemma edgeFold_content :
    ∀ (rels : List RawTriple) (m : List (String × List RawTriple)),
      (∀ k b, (k, b) ∈ m → ∀ x ∈ b, edgeKey x = k) →
      ∀ k b, (k, b) ∈ rels.foldl groupInsert m → ∀ x ∈ b, edgeKey x = k := by
  intro rels
  induction rels with
  | nil => exact fun m hm => hm
  | cons r rs ih => exact fun m hm => ih (groupInsert m r) (groupInsert_content hm)

/-- The number of bundles equals the number of distinct edge keys among the
grouped relationships. -/
lemma edgeMapOf_length (rels : List RawTriple) :
    (edgeMapOf rels).length = ((rels.map edgeKey).toFinset).card := by
  have hnodup : ((edgeMapOf rels).map Prod.fst).Nodup :=
    edgeFold_keys_nodup rels [] (by simp)
  have hset : ((edgeMapOf rels).map Prod.fst).toFinset = (rels.map edgeKey).toFinset := by
    apply Finset.ext
    intro k
    rw [List.mem_toFinset, List.mem_toFinset]
    simpa using edgeFold_keys_mem rels [] k
  calc (edgeMapOf rels).length
      = ((edgeMapOf rels).map Prod.fst).length := (List.length_map _ _).symm
    _ = ((edgeMapOf rels).map Prod.fst).toFinset.card :=
        (List.toFinset_card_of_nodup hnodup).symm
    _ = ((rels.map edgeKey).toFinset).card := by rw [hset]

/-- The keyword stage never adds relationships. -/
lemma mem_of_mem_keywordStage {ks : List String} {l : List RawTriple} {t : RawTriple}
    (h : t ∈ keywordStage ks l) : t ∈ l := by
  rw [keywordStage] at h
  split at h
  · exact h
  · exact List.mem_of_mem_filter h

/-- The cluster stage never adds relationships. -/
lemma mem_of_mem_clusterStage {cl : List Int} {l : List RawTriple} {t : RawTriple}
    (h : t ∈ clusterStage cl l) : t ∈ l :=
  List.mem_of_mem_filter h

/-- Relationships surviving the in-memory filters come from the fetched
rows. -/
lemma mem_globalFiltered_rows {db : DB} {p : QueryParams} {t : RawTriple}
    (h : t ∈ globalFiltered db p) : t ∈ globalRows db p :=
  mem_of_mem_clusterStage (mem_of_mem_keywordStage h)

/-- Every fetched row of the global view satisfies the SQL WHERE clause. -/
lemma sqlPred_of_mem_globalRows {db : DB} {p : QueryParams} {t : RawTriple}
    (h : t ∈ globalRows db p) : sqlPred db p t = true := by
  rw [globalRows] at h
  have h1 := mem_of_mem_stableSortBy (List.take_subset _ _ h)
  exact List.of_mem_filter h1

/-- Every relationship of the global response comes from the filtered row
set. -/
lemma mem_globalQuery_filtered {db : DB} {p : QueryParams} {t : RawTriple}
    (h : t ∈ (globalQuery db p).relationships) : t ∈ globalFiltered db p := by
  rw [globalQuery] at h
  simp only [List.mem_flatten, List.mem_map] at h
  obtain ⟨l, ⟨b, hb, hbe⟩, htl⟩ := h
  subst hbe
  have hb1 : b ∈ sortedBundles (globalFiltered db p) :=
    List.take_subset _ _ hb
  have hb2 : b ∈ edgeMapOf (globalFiltered db p) := by
    rw [sortedBundles] at hb1
    exact mem_of_mem_stableSortBy hb1
  exact edgeMapOf_mem (k := b.1) (by simpa using hb2) htl

/-- Relationships of the neighborhood response are resolved versions of
stored triples satisfying the neighborhood WHERE clause. -/
lemma mem_neighborhoodQuery_pred {db : DB} {name : String} {p : QueryParams}
    {t : RawTriple} (h : t ∈ (neighborhoodQuery db name p).relationships) :
    ∃ t0, t0 ∈ db.triples ∧
      neighborhoodSqlPred db p (aliasEquivSet db name) t0 = true ∧
      t = resolveTriple db.aliases t0 := by
  have h1 : t ∈ neighborhoodRows db name p :=
    mem_of_mem_clusterStage (mem_of_mem_keywordStage h)
  rw [neighborhoodRows] at h1
  have h2 := mem_of_mem_stableSortBy h1
  obtain ⟨t0, ht0, hte⟩ := List.mem_map.mp h2
  exact ⟨t0, List.mem_of_mem_filter ht0, List.of_mem_filter ht0, hte.symm⟩

/-- Alias resolution does not touch the timestamp column. -/
lemma resolveTriple_timestamp (a : List (String × String)) (t : RawTriple) :
    (resolveTriple a t).timestamp = t.timestamp := rfl

/-- Unpacking the baseline timestamp condition for a dated triple. -/
lemma baselineTs_sound {t : RawTriple} {s : String} (h : baselineTs t = true)
    (hs : t.timestamp = some s) : strLt s "1970-01-01" = false := by
  rw [baselineTs, hs] at h
  simpa using h

/-- The baseline condition is the first conjunct of the global WHERE
clause. -/
lemma baselineTs_of_sqlPred {db : DB} {p : QueryParams} {t : RawTriple}
    (h : sqlPred db p t = true) : baselineTs t = true := by
  rw [sqlPred] at h
  simp only [Bool.and_eq_true] at h
  exact h.1.1.1

/-- The hop condition is the last conjunct of the global WHERE clause. -/
lemma hopPass_of_sqlPred {db : DB} {p : QueryParams} {t : RawTriple}
    (h : sqlPred db p t = true) : hopPass db p.maxHops t = true := by
  rw [sqlPred] at h
  simp only [Bool.and_eq_true] at h
  exact h.2

/-- A passed finite hop bound forces both stored hop distances to exist and
to be within the bound. -/
lemma hopPass_sound {db : DB} {h : Int} {t : RawTriple}
    (hp : hopPass db (some h) t = true) :
    ∃ da dt : Int, hopLookup db t.actor = some da ∧ da ≤ h ∧
      hopLookup db t.target = some dt ∧ dt ≤ h := by
  rw [hopPass] at hp
  rcases hda : hopLookup db t.actor with _ | da <;>
    rcases hdt : hopLookup db t.target with _ | dt <;>
      rw [hda, hdt] at hp <;> simp at hp
  exact ⟨da, dt, rfl, hp.1, rfl, hp.2⟩

/-- A list of nonnegative rationals has positive sum exactly when one of its
elements is positive. -/
lemma list_sum_pos_iff {l : List ℚ} (h : ∀ x ∈ l, 0 ≤ x) :
    0 < l.sum ↔ ∃ x ∈ l, 0 < x := by
  induction l with
  | nil => simp
  | cons a s ih =>
    have ha : 0 ≤ a := h a (List.mem_cons_self a s)
    have hs : ∀ x ∈ s, 0 ≤ x := fun x hx => h x (List.mem_cons_of_mem a hx)
    have hsum : 0 ≤ s.sum := List.sum_nonneg hs
    rw [List.sum_cons]
    constructor
    · intro hpos
      rcases lt_or_eq_of_le ha with ha' | ha'
      · exact ⟨a, List.mem_cons_self a s, ha'⟩
      · obtain ⟨x, hx, hx'⟩ := (ih hs).mp (by linarith)
        exact ⟨x, List.mem_cons_of_mem a hx, hx'⟩
    · rintro ⟨x, hx, hx'⟩
      rcases List.mem_cons.mp hx with rfl | hx2
      · linarith
      · have := (ih hs).mpr ⟨x, hx2, hx'⟩
        linarith

/-- A BM25 keyword contribution is nonnegative for a positive IDF. -/
lemma bm25Term_nonneg {idf : ℚ} (hidf : 0 < idf) (words : List String)
    (keyword : String) : 0 ≤ bm25Term idf words keyword := by
  rw [bm25Term]
  split
  · exact le_refl 0
  · rename_i htf
    have h1 : (0 : ℚ) < (termFreq words keyword : ℚ) := by
      exact_mod_cast Nat.pos_of_ne_zero htf
    have hx : (0 : ℚ) ≤ (words.length : ℚ) / 100 := by positivity
    have hden : (0 : ℚ) <
        (termFreq words keyword : ℚ) +
          1.2 * (1 - 0.75 + 0.75 * ((words.length : ℚ) / 100)) := by nlinarith
    have hnum : (0 : ℚ) ≤ (termFreq words keyword : ℚ) * (1.2 + 1) := by nlinarith
    positivity

/-- A BM25 keyword contribution is positive exactly when the keyword has
positive term frequency, for any positive IDF. -/
lemma bm25Term_pos_iff {idf : ℚ} (hidf : 0 < idf) (words : List String)
    (keyword : String) :
    0 < bm25Term idf words keyword ↔ termFreq words keyword ≠ 0 := by
  rw [bm25Term]
  split
  · rename_i htf
    simp [htf]
  · rename_i htf
    have h1 : (0 : ℚ) < (termFreq words keyword : ℚ) := by
      exact_mod_cast Nat.pos_of_ne_zero htf
    have hx : (0 : ℚ) ≤ (words.length : ℚ) / 100 := by positivity
    have hden : (0 : ℚ) <
        (termFreq words keyword : ℚ) +
          1.2 * (1 - 0.75 + 0.75 * ((words.length : ℚ) / 100)) := by nlinarith
    have hnum : (0 : ℚ) < (termFreq words keyword : ℚ) * (1.2 + 1) := by nlinarith
    simp only [htf, iff_true, ne_eq, not_false_eq_true]
    exact mul_pos hidf (div_pos hnum hden)

/-- A positive term frequency is exactly a token containing the keyword. -/
lemma termFreq_ne_zero_iff (words : List String) (keyword : String) :
    termFreq words keyword ≠ 0 ↔ ∃ w ∈ words, containsSub w keyword = true := by
  rw [termFreq, ← Nat.pos_iff_ne_zero, List.length_pos_iff_exists_mem]
  constructor
  · rintro ⟨w, hw⟩
    have := List.mem_filter.mp hw
    exact ⟨w, this.1, this.2⟩
  · rintro ⟨w, hw, hc⟩
    exact ⟨w, List.mem_filter.mpr ⟨hw, hc⟩⟩

/-- For a non-empty text and keyword list, the BM25 score is positive
exactly when some keyword occurs as a substring of some token of the
lowercased text — for every positive IDF constant, in particular the
source's `Math.log(10)`. -/
lemma bm25ScoreWith_pos_iff {idf : ℚ} (hidf : 0 < idf) {text : String}
    (htext : text ≠ "") {keywords : List String} (hks : keywords ≠ []) :
    0 < bm25ScoreWith idf text keywords ↔
      ∃ k ∈ keywords, ∃ w ∈ splitWs text.toLower, containsSub w k = true := by
  rw [bm25ScoreWith, if_neg (by simp [htext, hks])]
  rw [list_sum_pos_iff (by
    intro x hx
    obtain ⟨k, _, hke⟩ := List.mem_map.mp hx
    exact hke ▸ bm25Term_nonneg hidf _ k)]
  constructor
  · rintro ⟨x, hx, hx'⟩
    obtain ⟨k, hk, hke⟩ := List.mem_map.mp hx
    have := (bm25Term_pos_iff hidf _ k).mp (hke ▸ hx')
    exact ⟨k, hk, (termFreq_ne_zero_iff _ k).mp this⟩
  · rintro ⟨k, hk, hw⟩
    refine ⟨bm25Term idf (splitWs text.toLower) k, List.mem_map.mpr ⟨k, hk, rfl⟩, ?_⟩
    exact (bm25Term_pos_iff hidf _ k).mpr ((termFreq_ne_zero_iff _ k).mpr hw)

/-- The composed search text is never the empty string: it always contains
the three separating spaces. -/
lemma composedText_ne_empty (t : RawTriple) : composedText t ≠ "" := by
  intro h
  have hlen := congrArg String.length h
  rw [composedText] at hlen
  simp only [String.length_append] at hlen
  have hsp : (" " : String).length = 1 := rfl
  rw [hsp] at hlen
  simp at hlen

/-! ### Claim theorems -/

/-- Claim C1, counterexample: on the two triples A-to-B and B-to-A (same
unordered entity pair, opposite orientations) the deduplication stage
produces two distinct bundles with keys `A|||B` and `B|||A`, so the
deduplicated edge set holds two edges for one unordered pair, refuting the
unordered-pair grouping. -/
theorem c1_ordered_key_counterexample :
    ((edgeMapOf (globalFiltered oppDB (plainParams none))).map Prod.fst) =
      ["A|||B", "B|||A"] ∧
    (globalQuery oppDB (plainParams none)).totalBeforeLimit = 2 := by decide

/-- Claim C1, amended: the edge-deduplication stage groups triples by the
ordered entity-pair key `actor + "|||" + target` — every triple of a bundle
carries exactly the bundle's ordered key and the bundle keys are pairwise
distinct, so the deduplicated edge set contains at most one edge per ordered
pair, while opposite orientations fall into different bundles. -/
theorem c1_edge_dedup_ordered_key (rels : List RawTriple) (k : String)
    (b : List RawTriple) (t : RawTriple) (hb : (k, b) ∈ edgeMapOf rels)
    (ht : t ∈ b) :
    edgeKey t = k ∧ ((edgeMapOf rels).map Prod.fst).Nodup :=
  ⟨edgeFold_content rels [] (by simp) k b hb t ht,
   edgeFold_keys_nodup rels [] (by simp)⟩

/-- Claim C1, witness for the amended theorem at a concrete bundle of the
three-triple example. -/
theorem c1_edge_dedup_ordered_key_witness :
    edgeKey tAB1 = "A|||B" ∧
      ((edgeMapOf [tAB1, tAB2, tBC]).map Prod.fst).Nodup :=
  c1_edge_dedup_ordered_key [tAB1, tAB2, tBC] "A|||B" [tAB1, tAB2] tAB1
    (by decide) (by decide)

/-- Claim C2, counterexample: with `maxHops = 1` the global view returns the
E-to-F relationship because the stored `canonical_entities` hop distances of
E and F are 1, yet the per-query BFS over the filtered graph (which contains
no edge touching the reference entity) reaches neither endpoint — E appears
in the result with infinite per-query BFS distance, refuting the claim that
every returned entity has BFS distance at most the bound. -/
theorem c2_hop_bfs_counterexample :
    (globalQuery hopDB hopParams).relationships.map (fun t => t.actor) = ["E"] ∧
    hopParams.maxHops = some 1 ∧
    distLookup (bfsDistances (globalFiltered hopDB hopParams)) "E" = none ∧
    bfsDistances (globalFiltered hopDB hopParams) = [] := by decide

/-- Claim C2, amended: with a finite validated `maxHops` bound the hop
predicate is enforced inside the initial SQL query via the precomputed
`canonical_entities.hop_distance_from_principal` column: both canonical
endpoints of every returned relationship exist in `canonical_entities` with
stored hop distance at most the bound.  The per-query BFS distances are
computed but not used for filtering, so the per-query BFS distance of a
returned entity may exceed the bound. -/
theorem c2_hop_filter_via_stored_distances (db : DB) (p : QueryParams) (h : Int)
    (t : RawTriple) (hm : p.maxHops = some h)
    (ht : t ∈ (globalQuery db p).relationships) :
    ∃ da dt : Int, hopLookup db t.actor = some da ∧ da ≤ h ∧
      hopLookup db t.target = some dt ∧ dt ≤ h := by
  have h1 := hopPass_of_sqlPred (sqlPred_of_mem_globalRows
    (mem_globalFiltered_rows (mem_globalQuery_filtered ht)))
  rw [hm] at h1
  exact hopPass_sound h1

/-- Claim C2, witness for the amended theorem at the concrete hop
database. -/
theorem c2_hop_filter_via_stored_distances_witness :
    ∃ da dt : Int, hopLookup hopDB "E" = some da ∧ da ≤ 1 ∧
      hopLookup hopDB "F" = some dt ∧ dt ≤ 1 :=
  c2_hop_filter_via_stored_distances hopDB hopParams 1
    (mkTriple 1 "E" "met" "F" none) rfl (by decide)

/-- Claim C3: for every global-view query the pruned result keeps at most
`validateLimit limit` bundles, and the number of relationship records in the
response equals the sum of the bundle sizes of the kept edges. -/
theorem c3_prune_budget_and_bundle_sum (db : DB) (p : QueryParams) :
    (globalQuery db p).relationships.length =
      ((prunedBundles (globalFiltered db p) (validateLimit p.limit).toNat).map
        (fun b => b.2.length)).sum ∧
    (prunedBundles (globalFiltered db p) (validateLimit p.limit).toNat).length ≤
      (validateLimit p.limit).toNat := by
  constructor
  · show ((prunedBundles (globalFiltered db p) (validateLimit p.limit).toNat).map
        (fun b => b.2)).flatten.length = _
    rw [List.length_flatten, List.map_map]
    rfl
  · exact List.length_take_le _ _

/-- Claim C4: edge-budget pruning is monotone in the limit — both limits
slice the same stably density-sorted bundle list, so the bundles kept at the
smaller limit form a prefix of those kept at the larger one. -/
theorem c4_pruning_monotone (rels : List RawTriple) (l1 l2 : Nat) (h : l1 ≤ l2)
    (e : String × List RawTriple) (he : e ∈ prunedBundles rels l1) :
    e ∈ prunedBundles rels l2 := by
  rw [prunedBundles] at he ⊢
  rw [← Nat.min_eq_left h, ← List.take_take] at he
  exact List.take_subset _ _ he

/-- Claim C4, witness: the A-to-B bundle kept at limit 1 on the three-triple
example is also kept at limit 2. -/
theorem c4_pruning_monotone_witness :
    ("A|||B", [tAB1, tAB2]) ∈ prunedBundles [tAB1, tAB2, tBC] 2 :=
  c4_pruning_monotone [tAB1, tAB2, tBC] 1 2 (by decide)
    ("A|||B", [tAB1, tAB2]) (by decide)

/-- Claim C5, counterexample: on a store holding exactly one triple dated
1960-01-01 (and no filter parameters at all) the response reports
`totalBeforeFilter = 0` while the raw triple count is 1, because the query's
baseline timestamp condition already removed the row — refuting
`totalBeforeFilter` as the count before any filtering. -/
theorem c5_total_before_filter_counterexample :
    (globalQuery preEpochDB (plainParams none)).totalBeforeFilter = 0 ∧
    preEpochDB.triples.length = 1 := by decide

/-- Claim C5, amended: `totalBeforeLimit` is the number of distinct edge
bundles (distinct ordered edge keys) among the filtered triples before
pruning, and `totalBeforeFilter` is the number of rows fetched by the
database query — after the baseline timestamp, category, year and hop SQL
conditions and the 100000-row cap, but before the in-memory cluster and
keyword filters. -/
theorem c5_totals_amended (db : DB) (p : QueryParams) :
    (globalQuery db p).totalBeforeLimit =
      (((globalFiltered db p).map edgeKey).toFinset).card ∧
    (globalQuery db p).totalBeforeFilter = (globalRows db p).length :=
  ⟨edgeMapOf_length _, rfl⟩

/-- Claim C6: with a non-empty validated keyword list, a triple survives the
keyword stage iff its aggregate BM25 score over the composed
actor-action-target-location text is strictly positive, which holds iff at
least one keyword occurs as a substring of at least one whitespace-delimited
token of the lowercased composed text. -/
theorem c6_keyword_stage_iff (ks : List String) (l : List RawTriple)
    (t : RawTriple) (hk : ks ≠ []) :
    (t ∈ keywordStage ks l ↔
      t ∈ l ∧ 0 < calculateBM25Score (composedText t) ks) ∧
    (0 < calculateBM25Score (composedText t) ks ↔
      ∃ k ∈ ks, ∃ w ∈ splitWs (composedText t).toLower, containsSub w k = true) := by
  constructor
  · rw [keywordStage, if_neg (by simpa [List.isEmpty_iff] using hk), List.mem_filter]
    simp
  · exact bm25ScoreWith_pos_iff (by norm_num [logTen]) (composedText_ne_empty t) hk

/-- Claim C6, witness at a concrete triple whose action token "massages"
contains the keyword "mass" as a substring. -/
theorem c6_keyword_stage_iff_witness :
    (massTriple ∈ keywordStage ["mass"] [massTriple] ↔
      massTriple ∈ [massTriple] ∧
        0 < calculateBM25Score (composedText massTriple) ["mass"]) ∧
    (0 < calculateBM25Score (composedText massTriple) ["mass"] ↔
      ∃ k ∈ ["mass"], ∃ w ∈ splitWs (composedText massTriple).toLower,
        containsSub w k = true) :=
  c6_keyword_stage_iff ["mass"] [massTriple] massTriple (by decide)

/-- Claim C7, counterexample: `validateLimit` maps the numeric input 0 to the
default 500, not to the lower clamp bound 1. -/
theorem c7_limit_counterexample :
    validateLimit (some 0) = 500 ∧ validateLimit (some 0) ≠ 1 := by decide

/-- Claim C7, amended: a numeric input of at least 1 is clamped to
`min 20000 input` (so inputs above 20000 yield 20000 and inputs in the range
pass through), while a numeric input below 1 — like a non-numeric input —
yields the default 500 rather than the clamp bound 1. -/
theorem c7_validate_limit_amended :
    (∀ p : Int, validateLimit (some p) = if p < 1 then 500 else min 20000 p) ∧
    validateLimit none = 500 := by
  constructor
  · intro p
    rw [validateLimit]
    by_cases h : p < 1
    · rw [if_pos h, if_pos h]
    · rw [if_neg h, if_neg h, max_eq_right (by omega)]
  · rfl

/-- Claim C8: when no canonical name appears as an original name and no
alias maps to itself (the alias table is many-to-one with no chains deeper
than 1), alias resolution is idempotent. -/
theorem c8_resolve_idempotent (aliases : List (String × String))
    (h1 : ∀ r ∈ aliases, ∀ s ∈ aliases, s.1 ≠ r.2)
    (h2 : ∀ r ∈ aliases, r.1 ≠ r.2) (x : String) :
    resolve aliases (resolve aliases x) = resolve aliases x := by
  cases hf : aliases.find? (fun r => r.1 == x) with
  | none =>
    have hx : resolve aliases x = x := by simp [resolve, hf]
    rw [hx]
    exact hx
  | some r =>
    have hx : resolve aliases x = r.2 := by simp [resolve, hf]
    rw [hx]
    have hr : r ∈ aliases := List.mem_of_find?_eq_some hf
    have hnone : aliases.find? (fun s => s.1 == r.2) = none := by
      rw [List.find?_eq_none]
      intro s hs
      simpa using h1 r hr s hs
    simp [resolve, hnone]

/-- Claim C8, witness on a one-row alias table. -/
theorem c8_resolve_idempotent_witness :
    resolve jeffAliases (resolve jeffAliases "Jeff") = resolve jeffAliases "Jeff" :=
  c8_resolve_idempotent jeffAliases (by decide) (by decide) "Jeff"

/-- Claim C9: on exactly the triples A-to-B, A-to-B, B-to-C with limit 1 the
engine keeps the A-to-B bundle (not B-to-C), returns exactly its two
underlying relationship records, and reports a unique-edge total of 2. -/
theorem c9_worked_example :
    ((prunedBundles (globalFiltered exampleDB (plainParams (some 1)))
        (validateLimit (some 1)).toNat).map Prod.fst = ["A|||B"]) ∧
    (globalQuery exampleDB (plainParams (some 1))).relationships.map
      (fun t => t.id) = [1, 2] ∧
    (globalQuery exampleDB (plainParams (some 1))).relationships.length = 2 ∧
    (globalQuery exampleDB (plainParams (some 1))).totalBeforeLimit = 2 := by decide

/-- Claim C10: every query — the global view, the neighborhood view, and the
neighborhood view's unfiltered total count — excludes any triple whose
timestamp is non-null and lexicographically below 1970-01-01, regardless of
all filter parameters, and a null timestamp always passes the baseline
condition. -/
theorem c10_baseline_timestamp :
    (∀ (db : DB) (p : QueryParams) (t : RawTriple) (s : String),
        t ∈ (globalQuery db p).relationships → t.timestamp = some s →
          strLt s "1970-01-01" = false) ∧
    (∀ (db : DB) (name : String) (p : QueryParams) (t : RawTriple) (s : String),
        t ∈ (neighborhoodQuery db name p).relationships → t.timestamp = some s →
          strLt s "1970-01-01" = false) ∧
    (∀ (db : DB) (name : String) (t : RawTriple) (s : String),
        t ∈ totalCountRows db name → t.timestamp = some s →
          strLt s "1970-01-01" = false) ∧
    (∀ t : RawTriple, t.timestamp = none → baselineTs t = true) := by
  refine ⟨?_, ?_, ?_, ?_⟩
  · intro db p t s ht hs
    have h1 := sqlPred_of_mem_globalRows
      (mem_globalFiltered_rows (mem_globalQuery_filtered ht))
    exact baselineTs_sound (baselineTs_of_sqlPred h1) hs
  · intro db name p t s ht hs
    obtain ⟨t0, _, hpred, hte⟩ := mem_neighborhoodQuery_pred ht
    have hb : baselineTs t0 = true := by
      rw [neighborhoodSqlPred] at hpred
      simp only [Bool.and_eq_true] at hpred
      exact hpred.1.1.1.2
    have hts : t0.timestamp = some s := by
      rw [← resolveTriple_timestamp db.aliases t0, ← hte]
      exact hs
    exact baselineTs_sound hb hts
  · intro db name t s ht hs
    have h1 := List.of_mem_filter ht
    simp only [Bool.and_eq_true] at h1
    exact baselineTs_sound h1.2 hs
  · intro t h
    rw [baselineTs, h]

/-- Claim C10, witness: a triple dated 1975-06-01 in the global response
yields the baseline conclusion at that date. -/
theorem c10_baseline_timestamp_witness : strLt "1975-06-01" "1970-01-01" = false :=
  c10_baseline_timestamp.1 datedDB (plainParams none)
    (mkTriple 1 "A" "met" "B" (some "1975-06-01")) "1975-06-01" (by decide) rfl

end EDE
